import Mathlib

/-
Verification of the StorPool `service_hook` presence-tracking module
(`lib/spcharms/service_hook.py`).

The module keeps a presence state `source key → (entity name → bool)` in the
unit's persistent key-value store and notifies peers on change.  Python
dictionaries are modelled as association lists with Python-dict semantics:
lookup returns the first binding, assignment replaces an existing binding in
place (preserving insertion order) or appends a fresh one, deletion drops the
binding.  The persistent store is modelled by the two keys the module touches,
the reactive-flag framework by a set of raised flags plus the snapshot table
used by `helpers.data_changed`.  `platform.node()` is an explicit `selfNode`
parameter, `hookenv.relation_ids` an explicit enumerator function, and
`hookenv.relation_set` calls are collected into a published-message list.
-/

namespace ServiceHook

/-- Python dictionary lookup `d.get(key)`: the value of the first binding of
the key, if any. -/
def dget {β : Type} : List (String × β) → String → Option β
  | [], _ => none
  | (k, v) :: rest, key => if k = key then some v else dget rest key

/-- Python dictionary assignment `d[key] = val`: replace the value of an
existing binding in place, otherwise append the new binding at the end. -/
def dset {β : Type} : List (String × β) → String → β → List (String × β)
  | [], key, val => [(key, val)]
  | (k, v) :: rest, key, val =>
    if k = key then (k, val) :: rest else (k, v) :: dset rest key val

/-- Python dictionary deletion `del d[key]`: drop the first binding of
the key. -/
def ddel {β : Type} : List (String × β) → String → List (String × β)
  | [], _ => []
  | (k, v) :: rest, key => if k = key then rest else (k, v) :: ddel rest key

/-- A presence map: entity name → "is present" flag. -/
abbrev PresenceMap := List (String × Bool)

/-- The full presence state: source key → presence map.  The distinguished
source key `-local` holds this node's own observations. -/
abbrev PresenceState := List (String × PresenceMap)

/-- Two-level lookup `state[key][name]`, `none` when either level misses. -/
def dget2 (state : PresenceState) (key name : String) : Option Bool :=
  (dget state key).bind fun pm => dget pm name

/-- The unit's persistent key-value store (`unitdata.kv()`), restricted to
the two keys this module reads or writes:
`storpool-openstack-integration.lxd-name` and `storpool-service.state`. -/
structure DB where
  lxdName : Option String
  spState : Option PresenceState
  deriving DecidableEq

/-- `init_state(db)`: the current node itself is present and, if the
OpenStack integration has recorded a Cinder LXD name, that one is
present too. -/
def init_state (selfNode : String) (db : DB) : PresenceState :=
  let local_state : PresenceMap := [(selfNode, true)]
  let local_state :=
    match db.lxdName with
    | some lxd_cinder => dset local_state lxd_cinder true
    | none => local_state
  [("-local", local_state)]

/-- `get_state(db)`: the cached state or, if none is stored, a freshly
initialized one together with the `changed` flag. -/
def get_state (selfNode : String) (db : DB) : PresenceState × Bool :=
  match db.spState with
  | none => (init_state selfNode db, true)
  | some state => (state, false)

/-- `set_state(db, state)`: cache the presence state in the persistent
store. -/
def set_state (db : DB) (state : PresenceState) : DB :=
  { db with spState := some state }

/-- The result of `update_state`: the store, the in-memory state (mutated in
place in Python) and the returned dirty flag. -/
structure UpdRes where
  db : DB
  state : PresenceState
  changed : Bool
  deriving DecidableEq

/-- `update_state(db, state, changed, key, name, value)`: ensure
`state[key]` exists, set `state[key][name] = value` when
`state[key].get(name, not value) != value`, and persist the whole state
whenever the accumulated flag is dirty. -/
def update_state (db : DB) (state : PresenceState) (changed : Bool)
    (key name : String) (value : Bool) : UpdRes :=
  let state1 := if dget state key = none then dset state key [] else state
  let changed1 := if dget state key = none then true else changed
  let pm := (dget state1 key).getD []
  let state2 :=
    if (dget pm name).getD (!value) = value then state1
    else dset state1 key (dset pm name value)
  let changed2 :=
    if (dget pm name).getD (!value) = value then changed1 else true
  let db2 := if changed2 then set_state db state2 else db
  ⟨db2, state2, changed2⟩

/-- `json.dumps` of a boolean. -/
def jsonOfBool (b : Bool) : String := if b then "true" else "false"

/-- `json.dumps` of a presence map, in insertion order, matching Python's
`\x7b"a": true, "b": false\x7d` rendering. -/
def jsonOfPresenceMap (m : PresenceMap) : String :=
  "\x7b" ++ String.intercalate ", "
    (m.map fun p => "\"" ++ p.1 ++ "\": " ++ jsonOfBool p.2) ++ "\x7d"

/-- The result of `add_present_node`: the store after the call and the list
of `(relation id, payload)` pairs sent through `hookenv.relation_set`. -/
structure AnnounceRes where
  db : DB
  published : List (String × String)
  deriving DecidableEq

/-- `add_present_node(name, rel_name)`: load the state, mark `name`
present under the local source and, if that changed anything, send the
JSON-serialized local presence map to every relation id of `rel_name`. -/
def add_present_node (selfNode : String) (relation_ids : String → List String)
    (db : DB) (name rel_name : String) : AnnounceRes :=
  let sc := get_state selfNode db
  let r := update_state db sc.1 sc.2 "-local" name true
  if r.changed then
    let payload := jsonOfPresenceMap ((dget r.state "-local").getD [])
    ⟨r.db, (relation_ids rel_name).map fun rel_id => (rel_id, payload)⟩
  else
    ⟨r.db, []⟩

/-- One step of the `get_present_nodes` fold:
`res[key] = value or res.get(key, False)`. -/
def agg_step (res : PresenceMap) (kv : String × Bool) : PresenceMap :=
  dset res kv.1 (kv.2 || (dget res kv.1).getD false)

/-- `get_present_nodes()`: the aggregate view, folding every source's
presence map into one map with logical-or semantics per entity name. -/
def get_present_nodes (selfNode : String) (db : DB) : PresenceMap :=
  let sc := get_state selfNode db
  sc.1.foldl (fun res arr => arr.2.foldl agg_step res) []

/-- The reactive-flag framework: the set of raised flags and the snapshot
table kept by `charms.reactive.helpers.data_changed`. -/
structure Reactive where
  states : List String
  snapshots : List (String × PresenceState)
  deriving DecidableEq

/-- `charms.reactive.helpers.is_state(name)`. -/
def is_state (r : Reactive) (name : String) : Bool :=
  r.states.contains name

/-- `charms.reactive.set_state(name)`: raise a reactive flag. -/
def reactive_set_state (r : Reactive) (name : String) : Reactive :=
  if r.states.contains name then r else { r with states := name :: r.states }

/-- `charms.reactive.helpers.data_changed(data_id, data)`: true when the
value differs from the recorded snapshot (or none was recorded), always
re-recording the current value. -/
def data_changed (r : Reactive) (data_id : String) (value : PresenceState) :
    Bool × Reactive :=
  let old := dget r.snapshots data_id
  (decide (old ≠ some value),
   { r with snapshots := dset r.snapshots data_id value })

/-- The attach loop of `handle`: for each reported `(name, value)` pair run
`update_state` with the accumulated flag and make the flag sticky. -/
def handle_attach (key : String) : UpdRes → List (String × Bool) → UpdRes
  | r, [] => r
  | r, (name, value) :: rest =>
    let u := update_state r.db r.state r.changed key name value
    let changed := if u.changed then true else r.changed
    handle_attach key ⟨u.db, u.state, changed⟩ rest

/-- The state-updating part of `handle`: load the state, then either run the
attach loop over the reported data or, when detaching, delete the
conversation's source key (if recorded) and persist. -/
def handle_core (selfNode : String) (db : DB) (key : String)
    (attaching : Bool) (data : List (String × Bool)) : UpdRes :=
  let sc := get_state selfNode db
  if attaching then
    handle_attach key ⟨db, sc.1, sc.2⟩ data
  else
    if (dget sc.1 key).isSome then
      let state2 := ddel sc.1 key
      ⟨set_state db state2, state2, true⟩
    else
      ⟨db, sc.1, sc.2⟩

/-- The notification condition of `handle`, with Python's short-circuit
evaluation made explicit:
`changed or data_changed('storpool-service.state', state) or
not is_state('storpool-service.changed')`; `data_changed` updates its
snapshot only when the first disjunct is false. -/
def notify_check (r : Reactive) (state : PresenceState) (changed : Bool) :
    Bool × Reactive :=
  if changed then (true, r)
  else
    let dc := data_changed r "storpool-service.state" state
    if dc.1 then (true, dc.2)
    else (!(is_state dc.2 "storpool-service.changed"), dc.2)

/-- The result of `handle`: the store, the in-memory state, the returned
`changed` flag, the reactive framework afterwards, and whether
`reactive.set_state('storpool-service.change')` was invoked. -/
structure HandleRes where
  db : DB
  state : PresenceState
  changed : Bool
  reactive : Reactive
  notified : Bool
  deriving DecidableEq

/-- `handle(hk, attaching, data)`: update the state for an attach or detach
event, then raise `storpool-service.change` when the notification condition
holds, and return the accumulated `changed` flag. -/
def handle (selfNode : String) (db : DB) (reactive : Reactive) (key : String)
    (attaching : Bool) (data : List (String × Bool)) : HandleRes :=
  let core := handle_core selfNode db key attaching data
  let nc := notify_check reactive core.state core.changed
  let reactive2 :=
    if nc.1 then reactive_set_state nc.2 "storpool-service.change" else nc.2
  ⟨core.db, core.state, core.changed, reactive2, nc.1⟩

theorem dget_dset_self {β : Type} (m : List (String × β)) (k : String) (v : β) :
    dget (dset m k v) k = some v := by
  induction m with
  | nil => simp [dget, dset]
  | cons p rest ih =>
    obtain ⟨k0, v0⟩ := p
    by_cases h : k0 = k
    · simp [dget, dset, h]
    · simp [dget, dset, h, ih]

theorem dget_dset_ne {β : Type} (m : List (String × β)) (k k' : String) (v : β)
    (h : k ≠ k') : dget (dset m k v) k' = dget m k' := by
  induction m with
  | nil => simp [dget, dset, h]
  | cons p rest ih =>
    obtain ⟨k0, v0⟩ := p
    by_cases h0 : k0 = k
    · subst h0
      simp [dget, dset, h]
    · simp only [dset, if_neg h0]
      by_cases h1 : k0 = k'
      · simp [dget, h1]
      · simp [dget, h1, ih]

theorem dget_ddel_ne {β : Type} (m : List (String × β)) (k k' : String)
    (h : k ≠ k') : dget (ddel m k) k' = dget m k' := by
  induction m with
  | nil => simp [ddel]
  | cons p rest ih =>
    obtain ⟨k0, v0⟩ := p
    by_cases h0 : k0 = k
    · subst h0
      simp [dget, ddel, h]
    · simp only [ddel, if_neg h0]
      by_cases h1 : k0 = k'
      · simp [dget, h1]
      · simp [dget, h1, ih]

theorem update_state_absent_eq (db : DB) (state : PresenceState)
    (changed : Bool) (key name : String) (value : Bool)
    (hk : dget state key = none) :
    update_state db state changed key name value
      = ⟨set_state db (dset (dset state key []) key [(name, value)]),
         dset (dset state key []) key [(name, value)], true⟩ := by
  unfold update_state
  rw [hk]
  simp [dget_dset_self, dget, dset, Bool.not_ne_self]

theorem update_state_present_hit_eq (db : DB) (state : PresenceState)
    (changed : Bool) (key name : String) (value : Bool) (pm : PresenceMap)
    (hk : dget state key = some pm) (hv : dget pm name = some value) :
    update_state db state changed key name value
      = ⟨if changed then set_state db state else db, state, changed⟩ := by
  unfold update_state
  simp [hk, hv]

theorem update_state_present_miss_eq (db : DB) (state : PresenceState)
    (changed : Bool) (key name : String) (value : Bool) (pm : PresenceMap)
    (hk : dget state key = some pm)
    (hv : (dget pm name).getD (!value) ≠ value) :
    update_state db state changed key name value
      = ⟨set_state db (dset state key (dset pm name value)),
         dset state key (dset pm name value), true⟩ := by
  unfold update_state
  simp [hk, hv]

theorem dget2_update_state (db : DB) (state : PresenceState) (changed : Bool)
    (key name : String) (value : Bool) :
    dget2 (update_state db state changed key name value).state key name
      = some value := by
  cases hk : dget state key with
  | none =>
    rw [update_state_absent_eq db state changed key name value hk]
    simp [dget2, dget_dset_self, dget]
  | some pm =>
    by_cases hv : (dget pm name).getD (!value) = value
    · have hsome : dget pm name = some value := by
        cases hpn : dget pm name with
        | none =>
          rw [hpn] at hv
          simp only [Option.getD_none] at hv
          exact absurd hv (Bool.not_ne_self value)
        | some w =>
          rw [hpn] at hv
          simp only [Option.getD_some] at hv
          rw [hv]
      rw [update_state_present_hit_eq db state changed key name value pm hk hsome]
      simp [dget2, hk, hsome]
    · rw [update_state_present_miss_eq db state changed key name value pm hk hv]
      simp [dget2, dget_dset_self]

theorem update_state_noop (db : DB) (state : PresenceState)
    (key name : String) (value : Bool)
    (h : dget2 state key name = some value) :
    update_state db state false key name value = ⟨db, state, false⟩ := by
  unfold dget2 at h
  cases hk : dget state key with
  | none => rw [hk] at h; simp at h
  | some pm =>
    rw [hk] at h
    simp only [Option.some_bind] at h
    rw [update_state_present_hit_eq db state false key name value pm hk h]
    simp

/-- C4: `update_state` is idempotent: after one call with
`(key, name, value)`, a second call with the same arguments and an incoming
dirty flag of `false` leaves the state unchanged, does not persist, and
returns `false`; more generally, re-setting a name to its already-stored
value with an incoming dirty flag of `false` records no change and does not
persist. -/
theorem update_state_idempotent :
    (∀ (db : DB) (state : PresenceState) (changed : Bool)
       (key name : String) (value : Bool),
       update_state (update_state db state changed key name value).db
           (update_state db state changed key name value).state
           false key name value
         = ⟨(update_state db state changed key name value).db,
            (update_state db state changed key name value).state, false⟩)
    ∧ ∀ (db : DB) (state : PresenceState) (key name : String) (value : Bool),
        dget2 state key name = some value →
        update_state db state false key name value = ⟨db, state, false⟩ := by
  constructor
  · intro db state changed key name value
    exact update_state_noop _ _ _ _ _ (dget2_update_state db state changed key name value)
  · intro db state key name value h
    exact update_state_noop _ _ _ _ _ h

/-- Witness for C4 at a concrete state taken from the module's unit tests. -/
theorem update_state_idempotent_witness :
    dget2 [("a", [("aa", false), ("ab", true)])] "a" "aa" = some false ∧
    update_state ⟨none, none⟩ [("a", [("aa", false), ("ab", true)])] false
        "a" "aa" false
      = ⟨⟨none, none⟩, [("a", [("aa", false), ("ab", true)])], false⟩ :=
  ⟨by decide,
   update_state_idempotent.2 ⟨none, none⟩ [("a", [("aa", false), ("ab", true)])]
     "a" "aa" false (by decide)⟩

/-- C5: on a previously-absent source key, `update_state` creates the source
entry, stores `state[key][name] = value`, and returns a dirty flag of
`true`, regardless of the value being set and of the incoming dirty flag. -/
theorem update_state_absent_key_dirty :
    ∀ (db : DB) (state : PresenceState) (changed : Bool)
      (key name : String) (value : Bool),
      dget state key = none →
      (update_state db state changed key name value).changed = true ∧
      (dget (update_state db state changed key name value).state key).isSome ∧
      dget2 (update_state db state changed key name value).state key name
        = some value := by
  intro db state changed key name value hk
  rw [update_state_absent_eq db state changed key name value hk]
  refine ⟨rfl, ?_, ?_⟩
  · simp [dget_dset_self]
  · simp [dget2, dget_dset_self, dget]

/-- Witness for C5: a fresh source key on an empty state. -/
theorem update_state_absent_key_dirty_witness :
    dget ([] : PresenceState) "peer/1" = none ∧
    ((update_state ⟨none, none⟩ [] false "peer/1" "X" false).changed = true ∧
     (dget (update_state ⟨none, none⟩ [] false "peer/1" "X" false).state
        "peer/1").isSome ∧
     dget2 (update_state ⟨none, none⟩ [] false "peer/1" "X" false).state
        "peer/1" "X" = some false) :=
  ⟨by decide,
   update_state_absent_key_dirty ⟨none, none⟩ [] false "peer/1" "X" false
     (by decide)⟩

/-- C6: the dirty flag of `update_state` is monotonic: with an incoming
flag of `true` the returned flag is `true` and the full state is persisted
to the store, even when the call modifies nothing. -/
theorem update_state_monotonic :
    ∀ (db : DB) (state : PresenceState) (key name : String) (value : Bool),
      (update_state db state true key name value).changed = true ∧
      (update_state db state true key name value).db
        = set_state db (update_state db state true key name value).state := by
  intro db state key name value
  unfold update_state
  by_cases hk : dget state key = none
  · simp only [hk, if_pos rfl]
    by_cases hv : (dget ((dget (dset state key []) key).getD []) name).getD
        (!value) = value
    · simp [hv]
    · simp [hv]
  · simp only [hk, if_neg hk]
    by_cases hv : (dget ((dget state key).getD []) name).getD (!value) = value
    · simp [hv]
    · simp [hv]

theorem notify_check_fst (r : Reactive) (state : PresenceState)
    (changed : Bool) :
    (notify_check r state changed).1 = true ↔
      (changed = true ∨
       dget r.snapshots "storpool-service.state" ≠ some state ∨
       is_state r "storpool-service.changed" = false) := by
  unfold notify_check data_changed
  cases changed with
  | true => simp
  | false =>
    by_cases hd : dget r.snapshots "storpool-service.state" = some state
    · simp [hd, is_state]
    · simp [hd]

/-- C1: after the attach or detach transition of `handle`, the
`storpool-service.change` notification is raised if and only if the
accumulated `changed` flag is true, or the final state differs from the
snapshot recorded by the `data_changed` tracker, or the
`storpool-service.changed` flag has not been raised; when none of the three
conditions holds, no notification is raised. -/
theorem handle_notified_iff (selfNode : String) (db : DB) (r : Reactive)
    (key : String) (attaching : Bool) (data : List (String × Bool)) :
    (handle selfNode db r key attaching data).notified = true ↔
      ((handle selfNode db r key attaching data).changed = true ∨
       dget r.snapshots "storpool-service.state"
         ≠ some (handle selfNode db r key attaching data).state ∨
       is_state r "storpool-service.changed" = false) := by
  unfold handle
  exact notify_check_fst r _ _

theorem mem_reactive_set_state (r : Reactive) (name : String) :
    name ∈ (reactive_set_state r name).states := by
  unfold reactive_set_state
  by_cases h : r.states.contains name = true
  · rw [if_pos h]
    simpa using h
  · rw [if_neg h]
    exact List.mem_cons_self _ _

theorem is_state_reactive_set_state_ne (r : Reactive) (a b : String)
    (hne : a ≠ b) (h : is_state r a = false) :
    is_state (reactive_set_state r b) a = false := by
  unfold reactive_set_state
  by_cases hb : r.states.contains b = true
  · rw [if_pos hb]
    exact h
  · rw [if_neg hb]
    unfold is_state at h ⊢
    simp only [List.contains_cons]
    simp only [Bool.or_eq_false_iff]
    refine ⟨by simp [hne], ?_⟩
    simpa using h

/-- C2: on every invocation of `handle` — attach or detach, whatever the
prior state — the reactive flag `storpool-service.change` is set, provided
the distinct flag `storpool-service.changed` has not been raised by an
external party; and the module never raises the flag it checks, so
`storpool-service.changed` is still unraised afterwards. -/
theorem handle_always_notifies (selfNode : String) (db : DB) (r : Reactive)
    (key : String) (attaching : Bool) (data : List (String × Bool))
    (h : is_state r "storpool-service.changed" = false) :
    (handle selfNode db r key attaching data).notified = true ∧
    "storpool-service.change"
      ∈ (handle selfNode db r key attaching data).reactive.states ∧
    is_state (handle selfNode db r key attaching data).reactive
      "storpool-service.changed" = false := by
  have hn : (notify_check r (handle_core selfNode db key attaching data).state
      (handle_core selfNode db key attaching data).changed).1 = true :=
    (notify_check_fst _ _ _).2 (Or.inr (Or.inr h))
  have hst : (notify_check r (handle_core selfNode db key attaching data).state
      (handle_core selfNode db key attaching data).changed).2.states
        = r.states := by
    unfold notify_check data_changed
    by_cases hc : (handle_core selfNode db key attaching data).changed = true
    · simp [hc]
    · simp only [Bool.not_eq_true] at hc
      rw [hc]
      by_cases hd : dget r.snapshots "storpool-service.state"
          = some (handle_core selfNode db key attaching data).state
      · simp [hd]
      · simp [hd]
  have hsame : is_state (notify_check r
      (handle_core selfNode db key attaching data).state
      (handle_core selfNode db key attaching data).changed).2
        "storpool-service.changed" = false := by
    unfold is_state
    rw [hst]
    exact h
  refine ⟨?_, ?_, ?_⟩
  · unfold handle
    exact hn
  · unfold handle
    simp only [hn, if_pos]
    exact mem_reactive_set_state _ _
  · unfold handle
    simp only [hn, if_pos]
    exact is_state_reactive_set_state_ne _ _ _ (by decide) hsame

/-- Witness for C2: a detach call on an empty store with no raised flags
still raises `storpool-service.change`. -/
theorem handle_always_notifies_witness :
    (handle "n" ⟨none, none⟩ ⟨[], []⟩ "peer/1" false []).notified = true ∧
    "storpool-service.change"
      ∈ (handle "n" ⟨none, none⟩ ⟨[], []⟩ "peer/1" false []).reactive.states ∧
    is_state (handle "n" ⟨none, none⟩ ⟨[], []⟩ "peer/1" false []).reactive
      "storpool-service.changed" = false :=
  handle_always_notifies "n" ⟨none, none⟩ ⟨[], []⟩ "peer/1" false []
    (by decide)

/-- C3: a detach invocation of `handle` for a conversation key that is not
a source key of the stored state leaves the loaded state unchanged, writes
nothing to the store, and returns `changed = false`. -/
theorem handle_detach_unknown_key (selfNode : String) (db : DB) (r : Reactive)
    (key : String) (data : List (String × Bool)) (state : PresenceState)
    (hdb : db.spState = some state) (hk : dget state key = none) :
    (handle selfNode db r key false data).changed = false ∧
    (handle selfNode db r key false data).db = db ∧
    (handle selfNode db r key false data).state = state := by
  unfold handle handle_core get_state
  rw [hdb]
  simp [hk]

/-- Witness for C3: a detach on a store that records only another peer. -/
theorem handle_detach_unknown_key_witness :
    (handle "n" ⟨none, some [("peer/2", [("X", true)])]⟩ ⟨[], []⟩
        "peer/1" false []).changed = false ∧
    (handle "n" ⟨none, some [("peer/2", [("X", true)])]⟩ ⟨[], []⟩
        "peer/1" false []).db = ⟨none, some [("peer/2", [("X", true)])]⟩ ∧
    (handle "n" ⟨none, some [("peer/2", [("X", true)])]⟩ ⟨[], []⟩
        "peer/1" false []).state = [("peer/2", [("X", true)])] :=
  handle_detach_unknown_key "n" ⟨none, some [("peer/2", [("X", true)])]⟩
    ⟨[], []⟩ "peer/1" [] [("peer/2", [("X", true)])] (by decide) (by decide)

/-- All `(entity name, flag)` pairs of all source presence maps, in
iteration order. -/
def all_entries (state : PresenceState) : List (String × Bool) :=
  (state.map Prod.snd).flatten

theorem dget_foldl_agg_step (items : List (String × Bool)) :
    ∀ (res : PresenceMap) (name : String),
      dget (items.foldl agg_step res) name =
        if (items.any fun p => p.1 == name) || (dget res name).isSome
        then some ((items.any fun p => p.1 == name && p.2)
                    || (dget res name).getD false)
        else none := by
  induction items with
  | nil =>
    intro res name
    cases h : dget res name <;> simp [h]
  | cons p rest ih =>
    intro res name
    obtain ⟨k, v⟩ := p
    by_cases hkn : k = name
    · subst hkn
      simp only [List.foldl_cons, ih, agg_step, dget_dset_self]
      simp [Bool.or_comm, Bool.or_assoc, Bool.or_left_comm]
    · simp only [List.foldl_cons, ih, agg_step]
      rw [dget_dset_ne _ _ _ _ hkn]
      have hb : (k == name) = false := by simp [hkn]
      simp [hb]

theorem foldl_agg_step_flatten (state : PresenceState) :
    ∀ res : PresenceMap,
      state.foldl (fun res arr => arr.2.foldl agg_step res) res
        = (all_entries state).foldl agg_step res := by
  induction state with
  | nil => intro res; simp [all_entries]
  | cons p rest ih =>
    intro res
    simp [all_entries, List.foldl_append, ih]

theorem dget_get_present_nodes (selfNode : String) (db : DB)
    (state : PresenceState) (hdb : db.spState = some state) (name : String) :
    dget (get_present_nodes selfNode db) name =
      if (all_entries state).any fun p => p.1 == name
      then some ((all_entries state).any fun p => p.1 == name && p.2)
      else none := by
  unfold get_present_nodes get_state
  rw [hdb]
  simp only []
  rw [foldl_agg_step_flatten, dget_foldl_agg_step]
  simp [dget]

theorem any_of_perm {α : Type} {l1 l2 : List α} (p : α → Bool)
    (h : List.Perm l1 l2) : l1.any p = l2.any p := by
  rw [Bool.eq_iff_iff]
  simp only [List.any_eq_true]
  constructor
  · rintro ⟨x, hx, hp⟩
    exact ⟨x, h.mem_iff.1 hx, hp⟩
  · rintro ⟨x, hx, hp⟩
    exact ⟨x, h.mem_iff.2 hx, hp⟩

/-- C7: `get_present_nodes` has the name of an entity in its domain exactly
when some source mentions it, maps it to the logical OR of that entity's
flags over every entry of every source, and any two stored states whose
entry sequences are permutations of one another — sources reordered, or
entries within a source reordered — yield the same aggregate at every
name. -/
theorem get_present_nodes_or_semantics :
    ∀ (selfNode : String) (db : DB) (state : PresenceState),
      db.spState = some state →
      (∀ name, dget (get_present_nodes selfNode db) name =
         if (all_entries state).any fun p => p.1 == name
         then some ((all_entries state).any fun p => p.1 == name && p.2)
         else none)
      ∧ ∀ (selfNode2 : String) (db2 : DB) (state2 : PresenceState),
          db2.spState = some state2 →
          List.Perm (all_entries state) (all_entries state2) →
          ∀ name, dget (get_present_nodes selfNode db) name
            = dget (get_present_nodes selfNode2 db2) name := by
  intro selfNode db state hdb
  refine ⟨fun name => dget_get_present_nodes selfNode db state hdb name, ?_⟩
  intro selfNode2 db2 state2 hdb2 hperm name
  rw [dget_get_present_nodes selfNode db state hdb name,
    dget_get_present_nodes selfNode2 db2 state2 hdb2 name,
    any_of_perm _ hperm, any_of_perm _ hperm]

/-- Witness for C7: two stores holding the same sources in different
orders — and one source's entries reordered — agree on entity `x`, which is
false in one source and true in another. -/
theorem get_present_nodes_or_semantics_witness :
    dget (get_present_nodes "n"
        ⟨none, some [("a", [("x", false), ("y", true)]), ("b", [("x", true)])]⟩)
        "x"
      = dget (get_present_nodes "n2"
        ⟨none, some [("b", [("x", true)]), ("a", [("y", true), ("x", false)])]⟩)
        "x" :=
  (get_present_nodes_or_semantics "n"
    ⟨none, some [("a", [("x", false), ("y", true)]), ("b", [("x", true)])]⟩
    [("a", [("x", false), ("y", true)]), ("b", [("x", true)])] (by decide)).2
    "n2" ⟨none, some [("b", [("x", true)]), ("a", [("y", true), ("x", false)])]⟩
    [("b", [("x", true)]), ("a", [("y", true), ("x", false)])]
    (by decide) (by decide) "x"

/-- Counterexample for C8: when the configured secondary identity equals
the node's own identity, the Python dictionary literal collapses the two
keys and `init_state` yields one entity, not two. -/
theorem init_state_secondary_coincides :
    init_state "n" ⟨some "n", none⟩ = [("-local", [("n", true)])] ∧
    ((dget (init_state "n" ⟨some "n", none⟩) "-local").getD []).length ≠ 2 := by
  decide

/-- C8 (amended): `init_state` returns exactly one source entry, the local
one; with no secondary identity its presence map is exactly the node's
identity mapped to true, and with a configured secondary identity distinct
from the node's identity it is exactly those two entities, both true. -/
theorem init_state_entities :
    (∀ (selfNode : String) (s : Option PresenceState),
       init_state selfNode ⟨none, s⟩ = [("-local", [(selfNode, true)])])
    ∧ ∀ (selfNode lxd : String) (s : Option PresenceState), lxd ≠ selfNode →
        init_state selfNode ⟨some lxd, s⟩
          = [("-local", [(selfNode, true), (lxd, true)])] := by
  constructor
  · intro selfNode s
    simp [init_state]
  · intro selfNode lxd s h
    unfold init_state
    simp only []
    rw [show dset [(selfNode, true)] lxd true
        = [(selfNode, true), (lxd, true)] by
      simp [dset, h.symm]]

/-- Witness for C8 at distinct identities. -/
theorem init_state_entities_witness :
    init_state "n" ⟨some "m", none⟩
      = [("-local", [("n", true), ("m", true)])] :=
  init_state_entities.2 "n" "m" none (by decide)

/-- C9: from an empty store, `add_present_node` for entity `new-node`
persists exactly the local source mapping the node's identity and
`new-node` to true and publishes the JSON of that local map once to every
relation id returned by the enumerator for the given relation name; and
whenever the update reports no change, nothing is published. -/
theorem add_present_node_empty_store :
    (∀ (selfNode : String) (relation_ids : String → List String)
       (rel_name : String), selfNode ≠ "new-node" →
       (add_present_node selfNode relation_ids ⟨none, none⟩ "new-node"
           rel_name).db
         = ⟨none, some [("-local", [(selfNode, true), ("new-node", true)])]⟩ ∧
       (add_present_node selfNode relation_ids ⟨none, none⟩ "new-node"
           rel_name).published
         = (relation_ids rel_name).map fun rel_id =>
             (rel_id,
              jsonOfPresenceMap [(selfNode, true), ("new-node", true)]))
    ∧ ∀ (selfNode : String) (relation_ids : String → List String) (db : DB)
        (name rel_name : String),
        (update_state db (get_state selfNode db).1 (get_state selfNode db).2
            "-local" name true).changed = false →
        (add_present_node selfNode relation_ids db name rel_name).published
          = [] := by
  constructor
  · intro selfNode relation_ids rel_name h
    constructor <;>
      simp [add_present_node, get_state, init_state, update_state, set_state,
        dget, dset, h]
  · intro selfNode relation_ids db name rel_name h
    simp [add_present_node, h]

/-- Witness for C9: node `node-1`, two peer relation ids. -/
theorem add_present_node_empty_store_witness :
    (add_present_node "node-1" (fun _ => ["peer-rel/1", "peer-rel/42"])
        ⟨none, none⟩ "new-node" "peer-relation").db
      = ⟨none, some [("-local", [("node-1", true), ("new-node", true)])]⟩ ∧
    (add_present_node "node-1" (fun _ => ["peer-rel/1", "peer-rel/42"])
        ⟨none, none⟩ "new-node" "peer-relation").published
      = ((fun _ => ["peer-rel/1", "peer-rel/42"]) "peer-relation").map
          fun rel_id =>
            (rel_id,
             jsonOfPresenceMap [("node-1", true), ("new-node", true)]) :=
  add_present_node_empty_store.1 "node-1"
    (fun _ => ["peer-rel/1", "peer-rel/42"]) "peer-relation" (by decide)

/-- The invariant of interest: the `-local` source entry exists and maps
the node's own identity to present. -/
def local_inv (selfNode : String) (state : PresenceState) : Prop :=
  dget2 state "-local" selfNode = some true

/-- The store-level invariant: whatever presence state is cached satisfies
`local_inv`. -/
def db_inv (selfNode : String) (db : DB) : Prop :=
  ∀ s, db.spState = some s → local_inv selfNode s

instance decidableLocalInv (selfNode : String) (state : PresenceState) :
    Decidable (local_inv selfNode state) :=
  inferInstanceAs (Decidable (dget2 state "-local" selfNode = some true))

theorem dget_cons_self {β : Type} (k : String) (v : β)
    (rest : List (String × β)) : dget ((k, v) :: rest) k = some v := by
  simp [dget]

theorem local_inv_init_state (selfNode : String) (db : DB) :
    local_inv selfNode (init_state selfNode db) := by
  unfold local_inv init_state dget2
  cases db.lxdName with
  | none =>
    rw [dget_cons_self]
    simp only [Option.some_bind]
    rw [dget_cons_self]
  | some lxd =>
    rw [dget_cons_self]
    simp only [Option.some_bind]
    by_cases hl : lxd = selfNode
    · subst hl
      simp [dset, dget]
    · rw [dget_dset_ne _ _ _ _ hl, dget_cons_self]

theorem local_inv_get_state (selfNode : String) (db : DB)
    (h : db_inv selfNode db) :
    local_inv selfNode (get_state selfNode db).1 := by
  cases hdb : db.spState with
  | none =>
    simp only [get_state, hdb]
    exact local_inv_init_state selfNode db
  | some s =>
    simp only [get_state, hdb]
    exact h s hdb

theorem local_inv_update_state (selfNode : String) (db : DB)
    (state : PresenceState) (changed : Bool) (key name : String)
    (value : Bool) (hinv : local_inv selfNode state) (hdb : db_inv selfNode db)
    (hcall : key ≠ "-local" ∨ value = true) :
    local_inv selfNode (update_state db state changed key name value).state ∧
    db_inv selfNode (update_state db state changed key name value).db := by
  have hloc : ∃ pm, dget state "-local" = some pm ∧ dget pm selfNode = some true := by
    unfold local_inv dget2 at hinv
    cases hg : dget state "-local" with
    | none => rw [hg] at hinv; simp at hinv
    | some pm =>
      rw [hg] at hinv
      simp only [Option.some_bind] at hinv
      exact ⟨pm, rfl, hinv⟩
  obtain ⟨pml, hgl, hpl⟩ := hloc
  cases hk : dget state key with
  | none =>
    have hkey : key ≠ "-local" := by
      intro he
      rw [he, hgl] at hk
      exact Option.noConfusion hk
    rw [update_state_absent_eq db state changed key name value hk]
    have hstate : local_inv selfNode
        (dset (dset state key []) key [(name, value)]) := by
      unfold local_inv dget2
      rw [dget_dset_ne _ _ _ _ hkey, dget_dset_ne _ _ _ _ hkey, hgl]
      simp only [Option.some_bind]
      exact hpl
    refine ⟨hstate, ?_⟩
    intro s hs
    simp only [set_state] at hs
    rw [← Option.some.inj hs]
    exact hstate
  | some pm =>
    by_cases hv : (dget pm name).getD (!value) = value
    · have hsome : dget pm name = some value := by
        cases hpn : dget pm name with
        | none =>
          rw [hpn] at hv
          simp only [Option.getD_none] at hv
          exact absurd hv (Bool.not_ne_self value)
        | some w =>
          rw [hpn] at hv
          simp only [Option.getD_some] at hv
          rw [hv]
      rw [update_state_present_hit_eq db state changed key name value pm hk
        hsome]
      refine ⟨hinv, ?_⟩
      intro s hs
      cases changed with
      | true =>
        rw [if_pos rfl] at hs
        simp only [set_state] at hs
        rw [← Option.some.inj hs]
        exact hinv
      | false =>
        rw [if_neg (by decide)] at hs
        exact hdb s hs
    · rw [update_state_present_miss_eq db state changed key name value pm hk
        hv]
      have hstate : local_inv selfNode (dset state key (dset pm name value)) := by
        unfold local_inv dget2
        by_cases hkey : key = "-local"
        · subst hkey
          have hvt : value = true := hcall.resolve_left (by simp)
          subst hvt
          rw [hgl] at hk
          obtain rfl : pml = pm := Option.some.inj hk
          rw [dget_dset_self]
          simp only [Option.some_bind]
          by_cases hn : name = selfNode
          · subst hn
            rw [dget_dset_self]
          · rw [dget_dset_ne _ _ _ _ hn]
            exact hpl
        · rw [dget_dset_ne _ _ _ _ hkey, hgl]
          simp only [Option.some_bind]
          exact hpl
      refine ⟨hstate, ?_⟩
      intro s hs
      simp only [set_state] at hs
      rw [← Option.some.inj hs]
      exact hstate

theorem local_inv_handle_attach (selfNode : String) (key : String)
    (hkey : key ≠ "-local") :
    ∀ (data : List (String × Bool)) (r : UpdRes),
      local_inv selfNode r.state → db_inv selfNode r.db →
      local_inv selfNode (handle_attach key r data).state ∧
      db_inv selfNode (handle_attach key r data).db := by
  intro data
  induction data with
  | nil => intro r h1 h2; exact ⟨h1, h2⟩
  | cons p rest ih =>
    intro r h1 h2
    obtain ⟨name, value⟩ := p
    have hu := local_inv_update_state selfNode r.db r.state r.changed key
      name value h1 h2 (Or.inl hkey)
    simpa [handle_attach] using
      ih ⟨(update_state r.db r.state r.changed key name value).db,
          (update_state r.db r.state r.changed key name value).state,
          if (update_state r.db r.state r.changed key name value).changed
            then true else r.changed⟩ hu.1 hu.2

theorem local_inv_handle (selfNode : String) (db : DB) (r : Reactive)
    (key : String) (attaching : Bool) (data : List (String × Bool))
    (hdb : db_inv selfNode db) (hkey : key ≠ "-local") :
    local_inv selfNode (handle selfNode db r key attaching data).state ∧
    db_inv selfNode (handle selfNode db r key attaching data).db := by
  have hcore : local_inv selfNode
        (handle_core selfNode db key attaching data).state ∧
      db_inv selfNode (handle_core selfNode db key attaching data).db := by
    unfold handle_core
    have hst := local_inv_get_state selfNode db hdb
    cases attaching with
    | true =>
      simpa using local_inv_handle_attach selfNode key hkey data
        ⟨db, (get_state selfNode db).1, (get_state selfNode db).2⟩ hst hdb
    | false =>
      simp only [Bool.false_eq_true, if_false]
      by_cases hk : (dget (get_state selfNode db).1 key).isSome = true
      · rw [if_pos hk]
        have hdel : local_inv selfNode
            (ddel (get_state selfNode db).1 key) := by
          unfold local_inv dget2 at hst ⊢
          rw [dget_ddel_ne _ _ _ hkey]
          exact hst
        refine ⟨hdel, ?_⟩
        intro s hs
        simp only [set_state] at hs
        have := Option.some.inj hs
        rw [← this]
        exact hdel
      · rw [if_neg hk]
        exact ⟨hst, hdb⟩
  unfold handle
  exact hcore

theorem db_inv_add_present_node (selfNode : String)
    (relation_ids : String → List String) (db : DB) (name rel_name : String)
    (hdb : db_inv selfNode db) :
    db_inv selfNode
      (add_present_node selfNode relation_ids db name rel_name).db := by
  have hst := local_inv_get_state selfNode db hdb
  have hu := local_inv_update_state selfNode db (get_state selfNode db).1
    (get_state selfNode db).2 "-local" name true hst hdb (Or.inr rfl)
  unfold add_present_node
  by_cases hc : (update_state db (get_state selfNode db).1
      (get_state selfNode db).2 "-local" name true).changed = true
  · rw [if_pos hc]
    exact hu.2
  · rw [if_neg hc]
    exact hu.2

/-- C10: once initialized, every operation of the module — `init_state`,
`get_state`, `update_state`, `add_present_node`, and `handle` for attach
and detach — preserves the invariant that the `-local` source entry exists
and maps the node's own identity to present, given that `update_state` is
called either for a foreign source key or to mark an entity present (the
module's two call shapes) and that conversation keys supplied by the host
framework differ from the local marker `-local`. -/
theorem local_source_invariant :
    (∀ (selfNode : String) (db : DB),
       local_inv selfNode (init_state selfNode db))
    ∧ (∀ (selfNode : String) (db : DB), db_inv selfNode db →
         local_inv selfNode (get_state selfNode db).1)
    ∧ (∀ (selfNode : String) (db : DB) (state : PresenceState)
         (changed : Bool) (key name : String) (value : Bool),
         local_inv selfNode state → db_inv selfNode db →
         (key ≠ "-local" ∨ value = true) →
         local_inv selfNode
           (update_state db state changed key name value).state ∧
         db_inv selfNode (update_state db state changed key name value).db)
    ∧ (∀ (selfNode : String) (relation_ids : String → List String) (db : DB)
         (name rel_name : String), db_inv selfNode db →
         db_inv selfNode
           (add_present_node selfNode relation_ids db name rel_name).db)
    ∧ ∀ (selfNode : String) (db : DB) (r : Reactive) (key : String)
        (attaching : Bool) (data : List (String × Bool)),
        db_inv selfNode db → key ≠ "-local" →
        local_inv selfNode (handle selfNode db r key attaching data).state ∧
        db_inv selfNode (handle selfNode db r key attaching data).db :=
  ⟨local_inv_init_state,
   local_inv_get_state,
   fun selfNode db state changed key name value h1 h2 h3 =>
     local_inv_update_state selfNode db state changed key name value h1 h2 h3,
   db_inv_add_present_node,
   fun selfNode db r key attaching data h1 h2 =>
     local_inv_handle selfNode db r key attaching data h1 h2⟩

/-- Witness for C10: an attach event on a store recording only the local
entry keeps the local entry present. -/
theorem local_source_invariant_witness :
    local_inv "n" (handle "n" ⟨none, some [("-local", [("n", true)])]⟩
        ⟨[], []⟩ "peer/1" true [("X", true)]).state ∧
    db_inv "n" (handle "n" ⟨none, some [("-local", [("n", true)])]⟩
        ⟨[], []⟩ "peer/1" true [("X", true)]).db :=
  local_source_invariant.2.2.2.2 "n" ⟨none, some [("-local", [("n", true)])]⟩
    ⟨[], []⟩ "peer/1" true [("X", true)]
    (fun s hs => by
      have := Option.some.inj hs
      rw [← this]
      decide)
    (by decide)

end ServiceHook
